import Mathlib

/-!
Verification of the segmentation / synthesis / response-decoding / playback
pipeline of the novel-reader extension.  The definitions below are shallow
embeddings of the JavaScript functions in `popup.js` and the background
script (`src/unnamed/part_000`); the two scripts contain byte-for-byte
identical copies of the pipeline (`splitText` = `splitTextPlain`,
`synthesizeSegment` = `synthesizeSegmentLocal`, the orchestration loop of
`synthesizeAll` = the `onMessage` loop), so each is embedded once.

Strings are modelled as `List Char`, JavaScript numbers that can be `NaN`
as `Option Int` (`none` = `NaN`), byte buffers as `List Nat`.
-/

namespace NovelReader

/-- A JavaScript number as it occurs in the settings record: either `NaN`
(`none`) or an integer value (`some v`). -/
abbrev JsNum := Option Int

/-- JS `String.prototype.slice` index normalisation: a negative index counts
from the end (clamped at 0), a non-negative one is clamped at the length. -/
def normIdx (len : Nat) (i : Int) : Nat :=
  if i < 0 then ((len : Int) + i).toNat else min i.toNat len

/-- JS `text.slice(start, end)` on a list of UTF-16 units: the units from
`normIdx start` (inclusive) to `normIdx end` (exclusive), empty when the
normalised end does not exceed the normalised start. -/
def jsSlice (l : List Char) (start stop : Int) : List Char :=
  let a := normIdx l.length start
  let b := normIdx l.length stop
  (l.drop a).take (b - a)

/-- The `while (start < text.length)` loop of `splitText` in the background
script (identical to `splitTextPlain` in `popup.js`): push
`text.slice(start, start + maxLength)` and advance `start` by `maxLength`.
The loop is given explicit fuel; `none` means the fuel was exhausted, which
models the loop failing to terminate. -/
def splitTextLoop (text : List Char) (maxLength : Int) :
    Nat → Int → List (List Char) → Option (List (List Char))
  | 0, _, _ => none
  | fuel + 1, start, segments =>
    if start < (text.length : Int) then
      splitTextLoop text maxLength fuel (start + maxLength)
        (segments ++ [jsSlice text start (start + maxLength)])
    else some segments

/-- `splitText(text, maxLength)`: run the loop from `start = 0` with an
empty accumulator.  `text.length + 1` iterations always suffice when
`maxLength ≥ 1`, so `none` is returned exactly when the JS loop diverges. -/
def splitText (text : List Char) (maxLength : Int) : Option (List (List Char)) :=
  splitTextLoop text maxLength (text.length + 1) 0 []

/-- `Number(settings.maxLength) || 5000` in `synthesizeAll` / the message
listener: `NaN` and `0` are falsy and replaced by the default; every other
integer (negative ones included) is kept. -/
def jsOrDefault5000 (n : JsNum) : Int :=
  match n with
  | none => 5000
  | some v => if v = 0 then 5000 else v

example : splitText "abcde".toList 2 = some ["ab".toList, "cd".toList, "e".toList] := by decide
example : splitText [] 0 = some [] := by decide
example : jsOrDefault5000 none = 5000 := by decide
example : jsOrDefault5000 (some 0) = 5000 := by decide
example : jsOrDefault5000 (some (-3)) = -3 := by decide

/-! ## Response decoder (`synthesizeSegment` / `synthesizeSegmentLocal`) -/

/-- The double-quote character, U+0022. -/
def quoteChar : Char := Char.ofNat 34

/-- The opening-brace character, U+007B. -/
def lbraceChar : Char := Char.ofNat 123

/-- The closing-brace character, U+007D. -/
def rbraceChar : Char := Char.ofNat 125

/-- Index of a character in the standard base64 alphabet, `none` when the
character is not in the alphabet.  Used by the model of `atob`. -/
def b64Index (c : Char) : Option Nat :=
  if 'A' ≤ c ∧ c ≤ 'Z' then some (c.toNat - 65)
  else if 'a' ≤ c ∧ c ≤ 'z' then some (c.toNat - 97 + 26)
  else if '0' ≤ c ∧ c ≤ '9' then some (c.toNat - 48 + 52)
  else if c = '+' then some 62
  else if c = '/' then some 63
  else none

/-- Map every character to its base64 digit; fail on the first character
outside the alphabet (this is what makes `atob` throw). -/
def b64Digits : List Char → Option (List Nat)
  | [] => some []
  | c :: rest =>
    match b64Index c, b64Digits rest with
    | some d, some ds => some (d :: ds)
    | _, _ => none

/-- Reassemble bytes from 6-bit base64 digits: full groups of four digits
give three bytes, a trailing group of two or three digits gives one or two
bytes (low bits discarded), as in the forgiving-base64 decode. -/
def decodeDigits : List Nat → List Nat
  | a :: b :: c :: d :: rest =>
      (a * 4 + b / 16) :: ((b % 16) * 16 + c / 4) :: ((c % 4) * 64 + d) ::
        decodeDigits rest
  | [a, b] => [a * 4 + b / 16]
  | [a, b, c] => [a * 4 + b / 16, (b % 16) * 16 + c / 4]
  | _ => []

/-- Remove one or two trailing `=` padding characters. -/
def dropTrailingEq (s : List Char) : List Char :=
  match s.reverse with
  | c1 :: c2 :: rest =>
    if c1 = '=' then (if c2 = '=' then rest.reverse else (c2 :: rest).reverse)
    else s
  | [c1] => if c1 = '=' then [] else s
  | [] => s

/-- Model of `atob` followed by the `charCodeAt` byte extraction, i.e. the
forgiving-base64 decode to a byte list: strip ASCII whitespace, strip up to
two `=` padding characters when the length is a multiple of four, reject a
remaining length of 1 mod 4 or any character outside the alphabet; `none`
models the `InvalidCharacterError` that the `catch` around `atob` swallows. -/
def atob (input : List Char) : Option (List Nat) :=
  let s0 := input.filter fun c =>
    !(c = ' ' || c = Char.ofNat 9 || c = Char.ofNat 10 ||
      c = Char.ofNat 12 || c = Char.ofNat 13)
  let s := if s0.length % 4 = 0 then dropTrailingEq s0 else s0
  if s.length % 4 = 1 then none
  else
    match b64Digits s with
    | none => none
    | some ds => some (decodeDigits ds)

example : atob "QUI=".toList = some [65, 66] := by decide
example : atob "Q0Q=".toList = some [67, 68] := by decide
example : atob "!!!".toList = none := by decide
example : atob "A".toList = none := by decide

/-- The literal `"data":"` that the regex `/"data":"([^"]*)"/g` matches
before its capture group. -/
def dataLit : List Char := [quoteChar, 'd', 'a', 't', 'a', quoteChar, ':', quoteChar]

/-- Split a list at the first double quote: `some (before, after)` when a
quote occurs, with `before` quote-free; `none` when no quote occurs.  This
is the behaviour of the capture `([^"]*)` followed by the closing `"`. -/
def splitAtQuote : List Char → Option (List Char × List Char)
  | [] => none
  | c :: rest =>
    if c = quoteChar then some ([], rest)
    else
      match splitAtQuote rest with
      | some (v, r) => some (c :: v, r)
      | none => none

/-- One `regex.exec` scan of the body with `/"data":"([^"]*)"/g`, with fuel
(one unit per character position tried): collect the captured values in
order of appearance, resuming each search after the closing quote of the
previous match, exactly as `lastIndex` does. -/
def scanDataFuel : Nat → List Char → List (List Char)
  | 0, _ => []
  | _, [] => []
  | fuel + 1, c :: rest =>
    if dataLit.isPrefixOf (c :: rest) then
      match splitAtQuote (List.drop 8 (c :: rest)) with
      | some (v, r) => v :: scanDataFuel fuel r
      | none => scanDataFuel fuel rest
    else scanDataFuel fuel rest

/-- All captures of `/"data":"([^"]*)"/g` over the body text, in match
order.  `s.length` units of fuel suffice because every recursive call
strictly shortens the remaining text. -/
def scanData (s : List Char) : List (List Char) := scanDataFuel s.length s

/-- Wrap a value as the JSON object `{"data":"<v>"}` (a single frame of the
pseudo-streamed response). -/
def objWrap (v : List Char) : List Char :=
  lbraceChar :: dataLit ++ v ++ [quoteChar, rbraceChar]

example : scanData (objWrap "QUI=".toList ++ objWrap "Q0Q=".toList) =
    ["QUI=".toList, "Q0Q=".toList] := by decide

/-- The per-capture step of the decode loop: values that are empty or the
literal string `null` are skipped (`b64 && b64 !== 'null'`); otherwise
`atob` is attempted and a failure is swallowed (`none`). -/
def chunkOfValue (v : List Char) : Option (List Nat) :=
  if v ≠ [] ∧ v ≠ "null".toList then atob v else none

/-- The decode failure: the `throw new Error('No audio data returned from
API.')` raised when no chunk decoded. -/
inductive DecodeErr where
  | noAudioData
deriving DecidableEq

/-- Substring test on character lists, the model of
`String.prototype.includes`. -/
def containsSub (needle : List Char) : List Char → Bool
  | [] => needle.isPrefixOf []
  | c :: rest => needle.isPrefixOf (c :: rest) || containsSub needle rest

/-- The branch of `synthesizeSegment` / `synthesizeSegmentLocal` that turns
an HTTP response into a byte buffer: lowercase the content type; when it
contains `application/json` or `text`, scan the body text for
`"data":"..."` captures, decode the usable ones and concatenate them,
failing when none decoded; otherwise return the raw body bytes
(`response.arrayBuffer()`) unchanged. -/
def decodeBody (contentType bodyText : List Char) (bodyBytes : List Nat) :
    Except DecodeErr (List Nat) :=
  let lower := contentType.map Char.toLower
  if containsSub "application/json".toList lower || containsSub "text".toList lower then
    let chunks := (scanData bodyText).filterMap chunkOfValue
    if chunks = [] then .error .noAudioData
    else .ok chunks.flatten
  else .ok bodyBytes

example : decodeBody "application/json".toList
    (objWrap "QUI=".toList ++ objWrap "Q0Q=".toList) [9, 9] =
    .ok [65, 66, 67, 68] := by rfl
example : decodeBody "audio/mpeg".toList [] [1, 2, 3] = .ok [1, 2, 3] := by rfl
example : decodeBody "application/json".toList
    (objWrap "null".toList ++ objWrap []) [9] = .error .noAudioData := by rfl

/-! ## Synthesis orchestrator (`synthesizeAll` / the message listener) -/

/-- The settings record read wholesale from the store by
`getSettingsFromStorage` / `getSettings`.  String fields are `List Char`
(the store's defaults make them strings); `sampleRate` and `maxLength` pass
through `Number(...)`, so they are modelled as already-numeric `JsNum`. -/
structure Settings where
  apiKey : List Char
  resourceId : List Char
  speaker : List Char
  additions : List Char
  format : List Char
  sampleRate : JsNum
  maxLength : JsNum
deriving DecidableEq

/-- A failure of one `synthesizeSegment` call, as seen by the orchestration
loop: a non-2xx HTTP status (`remote`), or the decoder's failure. -/
inductive SegErr where
  | remote (status : Nat)
  | decode (e : DecodeErr)
deriving DecidableEq

/-- A failure of `synthesizeAll`: the settings precondition (the
`throw new Error('API key, resource ID and speaker must be configured...')`)
or a propagated per-segment failure. -/
inductive SynthErr where
  | precondition
  | seg (e : SegErr)
deriving DecidableEq

/-- The `for` loop of `synthesizeAll`: one transport call per segment, in
order; `transport n` is the outcome of the `n`-th call of
`synthesizeSegment` (a mock of the network plus decoder).  Returns the
result together with the number of transport calls performed.  On the first
failure the loop rethrows at once; later segments are never requested and
the partial `buffers` accumulator is discarded. -/
def synthLoop (transport : Nat → Except SegErr (List Nat)) :
    List (List Char) → Nat → List (List Nat) →
    Except SynthErr (List (List Nat)) × Nat
  | [], calls, acc => (.ok acc, calls)
  | _seg :: rest, calls, acc =>
    match transport calls with
    | .ok buf => synthLoop transport rest (calls + 1) (acc ++ [buf])
    | .error e => (.error (.seg e), calls + 1)

/-- `synthesizeAll(text)` with the settings already read and the network
abstracted as `transport`: reject empty `apiKey`/`resourceId`/`speaker`
before any call (JS falsiness of the empty string), default the segment
length, split, then run the sequential loop.  `none` models divergence of
`splitText` (possible only for a non-positive defaulted `maxLength`). -/
def synthesizeAll (settings : Settings) (text : List Char)
    (transport : Nat → Except SegErr (List Nat)) :
    Option (Except SynthErr (List (List Nat)) × Nat) :=
  if settings.apiKey = [] ∨ settings.resourceId = [] ∨ settings.speaker = [] then
    some (.error .precondition, 0)
  else
    match splitText text (jsOrDefault5000 settings.maxLength) with
    | none => none
    | some segments => some (synthLoop transport segments 0 [])

/-- The `req_params` object built by `synthesizeSegment` /
`synthesizeSegmentLocal`: the segment text, the speaker, the `additions`
field spread in only when the configured string is truthy (non-empty), and
the audio parameters with the format as configured and
`sample_rate: Number(settings.sampleRate)`. -/
structure ReqParams where
  text : List Char
  speaker : List Char
  additions : Option (List Char)
  format : List Char
  sample_rate : JsNum
deriving DecidableEq

/-- Construction of the request body from a segment and the settings,
copied from the `body` literal of `synthesizeSegment`.  No field is
validated. -/
def buildReqParams (segment : List Char) (s : Settings) : ReqParams :=
  { text := segment
    speaker := s.speaker
    additions := if s.additions = [] then none else some s.additions
    format := s.format
    sample_rate := s.sampleRate }

/-! ## Playback controller (`playNext` / `stopPlayback`) -/

/-- An observable playback event: an object URL starts playing, or an
object URL is revoked (`URL.revokeObjectURL`).  URLs are identified by
natural numbers. -/
inductive Ev where
  | play (u : Nat)
  | release (u : Nat)
deriving DecidableEq

/-- The module state of `popup.js`: the `currentUrls` queue and the
`currentIndex` cursor. -/
structure PState where
  urls : List Nat
  idx : Nat
deriving DecidableEq

/-- The events of one `playNext()` call: when the cursor is past the end
nothing plays (the finished branch only flips the buttons); otherwise the
URL at the cursor is loaded and played. -/
def playNextEvs (s : PState) : List Ev :=
  match s.urls[s.idx]? with
  | none => []
  | some u => [.play u]

/-- The revocation performed by the `onended` handler: release the URL
captured at the cursor when `playNext` installed the handler. -/
def relEvsAt (s : PState) : List Ev :=
  match s.urls[s.idx]? with
  | none => []
  | some u => [.release u]

/-- The `audioPlayer.onended` handler installed by `playNext`: revoke the
URL that just finished (the one at the cursor), advance the cursor, and
call `playNext()` again. -/
def onEndedStep (s : PState) : PState × List Ev :=
  let s2 : PState := ⟨s.urls, s.idx + 1⟩
  (s2, relEvsAt s ++ playNextEvs s2)

/-- `stopPlayback()`: pause the element, revoke every URL from the cursor
to the end of the queue, clear the queue and reset the cursor. -/
def stopPlaybackStep (s : PState) : PState × List Ev :=
  (⟨[], 0⟩, (s.urls.drop s.idx).map Ev.release)

/-- Scheduler for one playback lifetime after the initial `playNext()`:
while a segment is playing, either the user cancels (`cancelAt` equals the
cursor) — one `stopPlayback()` and the run ends — or the segment ends
naturally and `onEndedStep` fires.  Fuel bounds the number of segment
completions. -/
def drive (cancelAt : Option Nat) : Nat → PState → List Ev × PState
  | 0, s => ([], s)
  | fuel + 1, s =>
    if s.idx < s.urls.length then
      if cancelAt = some s.idx then
        let p := stopPlaybackStep s
        (p.2, p.1)
      else
        let p := onEndedStep s
        let q := drive cancelAt fuel p.1
        (p.2 ++ q.1, q.2)
    else ([], s)

/-- One full playback lifetime of a fresh queue: install the URLs with the
cursor at 0 (as the start handler does), run the first `playNext()`, then
drive to natural completion (`cancelAt = none`) or to a `cancel()` while
segment `cancelAt` is playing.  Returns the event trace and final state. -/
def runScenario (urls : List Nat) (cancelAt : Option Nat) : List Ev × PState :=
  let s0 : PState := ⟨urls, 0⟩
  let d := drive cancelAt urls.length s0
  (playNextEvs s0 ++ d.1, d.2)

/-- The re-initialisation done by the start handler once synthesis
succeeded: install the fresh URL list, reset the cursor to 0 and call
`playNext()` — regardless of what the previous lifetime left behind. -/
def startPlayback (newUrls : List Nat) (_s : PState) : PState × List Ev :=
  let s2 : PState := ⟨newUrls, 0⟩
  (s2, playNextEvs s2)

/-- The URLs played in a trace, in order. -/
def playsOf (t : List Ev) : List Nat :=
  t.filterMap fun e => match e with | .play u => some u | .release _ => none

/-- The URLs released in a trace, in order. -/
def releasesOf (t : List Ev) : List Nat :=
  t.filterMap fun e => match e with | .play _ => none | .release u => some u

example : runScenario [0, 1, 2] (some 1) =
    ([.play 0, .release 0, .play 1, .release 1, .release 2], ⟨[], 0⟩) := by decide
example : runScenario [7] none = ([.play 7, .release 7], ⟨[7], 1⟩) := by decide

/-! ## Lemmas about the segmenter -/

/-- For an in-range start index and a natural-number length,
`text.slice(start, start + m)` is take-after-drop. -/
theorem jsSlice_nat (l : List Char) (s m : Nat) (hs : s < l.length) :
    jsSlice l (s : Int) ((s : Int) + (m : Int)) = (l.drop s).take m := by
  unfold jsSlice normIdx
  have h1 : ¬ ((s : Int) < 0) := by omega
  have h2 : ¬ ((s : Int) + (m : Int) < 0) := by omega
  simp only [h1, if_false, h2]
  have h3 : (s : Int).toNat = s := Int.toNat_natCast s
  have h4 : ((s : Int) + (m : Int)).toNat = s + m := by omega
  rw [h3, h4]
  have h5 : min s l.length = s := by omega
  rw [h5]
  apply List.take_eq_take.mpr
  simp only [List.length_drop]
  omega

/-- Invariant of the `splitText` loop for a positive `maxLength`: with
enough fuel it terminates, appending to the accumulator segments that are
non-empty, bounded by `maxLength`, and flatten to the untraversed suffix. -/
theorem splitTextLoop_spec (text : List Char) (L : Int) (hL : 1 ≤ L) :
    ∀ (fuel : Nat) (s : Nat) (segments : List (List Char)),
      text.length - s < fuel →
      ∃ rest, splitTextLoop text L fuel (s : Int) segments = some (segments ++ rest) ∧
        rest.flatten = text.drop s ∧
        ∀ seg ∈ rest, seg ≠ [] ∧ (seg.length : Int) ≤ L := by
  intro fuel
  induction fuel with
  | zero => intro s segments h; omega
  | succ fuel ih =>
    intro s segments h
    by_cases hs : s < text.length
    · have hcond : (s : Int) < (text.length : Int) := by omega
      rw [splitTextLoop, if_pos hcond]
      set m : Nat := L.toNat with hm
      have hLm : L = (m : Int) := by omega
      have hm1 : 1 ≤ m := by omega
      have hseg : jsSlice text (s : Int) ((s : Int) + L) = (text.drop s).take m := by
        rw [hLm]; exact jsSlice_nat text s m hs
      have hstart : (s : Int) + L = ((s + m : Nat) : Int) := by omega
      rw [hseg, hstart]
      obtain ⟨rest, hrun, hflat, hprops⟩ :=
        ih (s + m) (segments ++ [(text.drop s).take m]) (by omega)
      refine ⟨(text.drop s).take m :: rest, ?_, ?_, ?_⟩
      · rw [hrun, List.append_assoc]; rfl
      · rw [List.flatten_cons, hflat]
        have : text.drop (s + m) = ((text.drop s).drop m) := by
          rw [List.drop_drop]
        rw [this, List.take_append_drop]
      · intro seg hmem
        rcases List.mem_cons.mp hmem with hEq | hmem2
        · subst hEq
          constructor
          · intro hnil
            have hlen := congrArg List.length hnil
            simp only [List.length_take, List.length_drop, List.length_nil] at hlen
            omega
          · have := List.length_take_le m (text.drop s)
            omega
        · exact hprops seg hmem2
    · have hcond : ¬ ((s : Int) < (text.length : Int)) := by omega
      rw [splitTextLoop, if_neg hcond]
      refine ⟨[], by rw [List.append_nil], ?_, by intro seg hmem; cases hmem⟩
      rw [List.flatten_nil, List.drop_eq_nil_of_le (by omega)]

/-- C1.  For every text and every positive integer maximum length, the
segmenter terminates and returns an ordered sequence of non-empty
segments, each of length at most the maximum, whose in-order concatenation
is exactly the input text; the empty text yields the empty sequence. -/
theorem claim1_segmenter_lossless (text : List Char) (L : Int) (hL : 1 ≤ L) :
    ∃ segs, splitText text L = some segs ∧
      segs.flatten = text ∧
      (∀ seg ∈ segs, seg ≠ [] ∧ (seg.length : Int) ≤ L) ∧
      (text = [] → segs = []) := by
  obtain ⟨rest, hrun, hflat, hprops⟩ :=
    splitTextLoop_spec text L hL (text.length + 1) 0 [] (by omega)
  refine ⟨rest, ?_, ?_, hprops, ?_⟩
  · simpa [splitText] using hrun
  · simpa using hflat
  · intro htext
    cases hrest : rest with
    | nil => rfl
    | cons hd tl =>
      exfalso
      have hhd := (hprops hd (by rw [hrest]; exact List.mem_cons_self hd tl)).1
      have : rest.flatten = [] := by rw [hflat, htext]; rfl
      rw [hrest, List.flatten_cons] at this
      exact hhd (List.append_eq_nil.mp this).1

/-- Witness for C1 at text `abcde` and maximum length 2. -/
theorem claim1_segmenter_lossless_witness :
    (splitText "abcde".toList 2).isSome = true := by
  obtain ⟨segs, h, _⟩ := claim1_segmenter_lossless "abcde".toList 2 (by decide)
  rw [h]; rfl

/-- Counterexample to C2 as stated: at text `""` and maximum length 0 (a
non-positive integer) the segmenter signals nothing — it returns the
normal result `[]` instead of a precondition violation.  (The code
contains no validation of `maxLength` at all.) -/
theorem claim2_counterexample : splitText [] 0 = some [] := by decide

/-- C2 amended.  The segmenter performs no validation for a non-positive
maximum length: on the empty text it returns the empty sequence normally,
and on any non-empty text the loop never terminates (it exhausts every
finite fuel).  Callers substitute the default 5000 only for an absent
(`NaN`) or zero configured value — a negative value is passed through. -/
theorem claim2_amended (text : List Char) (L : Int) (hL : L ≤ 0) (ht : text ≠ []) :
    splitText [] L = some [] ∧
    (∀ fuel acc, splitTextLoop text L fuel 0 acc = none) ∧
    jsOrDefault5000 none = 5000 ∧
    jsOrDefault5000 (some 0) = 5000 ∧
    (∀ v : Int, v ≠ 0 → jsOrDefault5000 (some v) = v) := by
  refine ⟨rfl, ?_, rfl, rfl, ?_⟩
  · have hlen : 1 ≤ text.length := by
      cases text with
      | nil => exact absurd rfl ht
      | cons c cs => simp
    have key : ∀ (fuel : Nat) (start : Int) (acc : List (List Char)), start ≤ 0 →
        splitTextLoop text L fuel start acc = none := by
      intro fuel
      induction fuel with
      | zero => intro start acc _; rfl
      | succ fuel ih =>
        intro start acc hstart
        have hcond : start < (text.length : Int) := by omega
        rw [splitTextLoop, if_pos hcond]
        exact ih (start + L) _ (by omega)
    intro fuel acc
    exact key fuel 0 acc (by omega)
  · intro v hv
    simp [jsOrDefault5000, hv]

/-- Witness for C2's amended statement at text `"a"` and length 0: the
loop is still unfinished after 5 iterations of fuel, while the empty text
returns the empty sequence. -/
theorem claim2_amended_witness :
    splitTextLoop "a".toList 0 5 0 [] = none ∧ splitText [] 0 = some [] := by
  have h := claim2_amended "a".toList 0 (by decide) (by decide)
  exact ⟨h.2.1 5 [], h.1⟩

/-! ## Theorems about the orchestrator -/

/-- C6.  When `apiKey`, `resourceId` or `speaker` is empty, `synthesizeAll`
fails with the precondition error before any network activity: the
transport is invoked zero times. -/
theorem claim6_precondition_before_network (s : Settings) (text : List Char)
    (transport : Nat → Except SegErr (List Nat))
    (h : s.apiKey = [] ∨ s.resourceId = [] ∨ s.speaker = []) :
    synthesizeAll s text transport = some (.error .precondition, 0) := by
  simp [synthesizeAll, h]

/-- Witness for C6: settings with an empty speaker. -/
theorem claim6_precondition_before_network_witness :
    synthesizeAll
        ⟨"k".toList, "r".toList, [], [], "mp3".toList, some 24000, some 5000⟩
        "hello".toList (fun _ => .ok []) =
      some (.error .precondition, 0) :=
  claim6_precondition_before_network _ _ _ (by right; right; rfl)

/-- C7.  The orchestration loop is strictly sequential and aborts on the
first failure: when the text splits into three segments, the first
transport call succeeds and the second fails, `synthesizeAll` propagates
the failure after exactly two calls — the third segment is never requested
and no partial buffer list is returned. -/
theorem claim7_sequential_abort (s : Settings) (text : List Char)
    (transport : Nat → Except SegErr (List Nat))
    (h1 : s.apiKey ≠ []) (h2 : s.resourceId ≠ []) (h3 : s.speaker ≠ [])
    (segs : List (List Char))
    (hsplit : splitText text (jsOrDefault5000 s.maxLength) = some segs)
    (hlen : segs.length = 3)
    (b0 : List Nat) (e : SegErr)
    (ht0 : transport 0 = .ok b0) (ht1 : transport 1 = .error e) :
    synthesizeAll s text transport = some (.error (.seg e), 2) := by
  obtain ⟨x, y, z, rfl⟩ := List.length_eq_three.mp hlen
  rw [synthesizeAll, if_neg (by simp [h1, h2, h3]), hsplit]
  simp [synthLoop, ht0, ht1]

/-- Witness for C7: a three-character text with segment length 1 and a
transport whose second call fails with a decode error. -/
theorem claim7_sequential_abort_witness :
    synthesizeAll ⟨"k".toList, "r".toList, "sp".toList, [], "mp3".toList, some 24000, some 1⟩
      "abc".toList
      (fun n => if n = 0 then .ok [1] else .error (.decode .noAudioData)) =
      some (.error (.seg (.decode .noAudioData)), 2) :=
  claim7_sequential_abort _ _ _ (by decide) (by decide) (by decide)
    ["a".toList, "b".toList, "c".toList] (by decide) rfl [1] (.decode .noAudioData)
    rfl rfl

/-- Helper for C10: the sequential loop can never produce the precondition
error — only propagated per-segment failures or success. -/
theorem synthLoop_ne_precondition (transport : Nat → Except SegErr (List Nat)) :
    ∀ (segs : List (List Char)) (calls : Nat) (acc : List (List Nat)),
      (synthLoop transport segs calls acc).1 ≠ .error .precondition := by
  intro segs
  induction segs with
  | nil => intro calls acc h; simp [synthLoop] at h
  | cons seg rest ih =>
    intro calls acc
    rw [synthLoop]
    cases htr : transport calls with
    | ok buf => exact ih (calls + 1) (acc ++ [buf])
    | error e => intro h; simp at h

/-- C10.  Once `apiKey`, `resourceId` and `speaker` are non-empty no other
field can cause a precondition failure: `format` and `sampleRate` are
never validated (the theorem holds for every value of those fields,
including `NaN`), the request carries `sample_rate` exactly as configured,
and `additions` is included exactly when the configured string is
non-empty. -/
theorem claim10_no_other_validation (s : Settings) (segment text : List Char)
    (transport : Nat → Except SegErr (List Nat))
    (h1 : s.apiKey ≠ []) (h2 : s.resourceId ≠ []) (h3 : s.speaker ≠ []) :
    (∀ out, synthesizeAll s text transport = some out →
      out.1 ≠ .error .precondition) ∧
    (buildReqParams segment s).sample_rate = s.sampleRate ∧
    (buildReqParams segment s).additions =
      (if s.additions = [] then none else some s.additions) ∧
    (buildReqParams segment s).format = s.format ∧
    (buildReqParams segment s).speaker = s.speaker ∧
    (buildReqParams segment s).text = segment := by
  refine ⟨?_, rfl, rfl, rfl, rfl, rfl⟩
  intro out hout
  rw [synthesizeAll, if_neg (by simp [h1, h2, h3])] at hout
  cases hsplit : splitText text (jsOrDefault5000 s.maxLength) with
  | none => rw [hsplit] at hout; cases hout
  | some segs =>
    rw [hsplit] at hout
    have : out = synthLoop transport segs 0 [] := by
      injection hout with h; exact h.symm
    rw [this]
    exact synthLoop_ne_precondition transport segs 0 []

/-- Witness for C10: an unknown format `xyz` and a `NaN` sample rate do not
trigger the precondition failure, and the request carries them through. -/
theorem claim10_no_other_validation_witness :
    (buildReqParams "ab".toList
        ⟨"k".toList, "r".toList, "sp".toList, [], "xyz".toList, none, some 1⟩).sample_rate
      = none ∧
    (buildReqParams "ab".toList
        ⟨"k".toList, "r".toList, "sp".toList, [], "xyz".toList, none, some 1⟩).additions
      = none ∧
    (Except.ok [[65], [65]] : Except SynthErr (List (List Nat))) ≠
      .error .precondition := by
  have h := claim10_no_other_validation
    ⟨"k".toList, "r".toList, "sp".toList, [], "xyz".toList, none, some 1⟩
    "ab".toList "ab".toList (fun _ => .ok [65])
    (by decide) (by decide) (by decide)
  exact ⟨h.2.1, h.2.2.1, h.1 (.ok [[65], [65]], 2) rfl⟩

/-! ## Theorems about the response decoder -/

/-- C5.  When the lowercased content type contains neither
`application/json` nor `text`, the decoder returns the raw body bytes
unchanged. -/
theorem claim5_binary_passthrough (ct bodyText : List Char) (bodyBytes : List Nat)
    (h : (containsSub "application/json".toList (ct.map Char.toLower) ||
          containsSub "text".toList (ct.map Char.toLower)) = false) :
    decodeBody ct bodyText bodyBytes = .ok bodyBytes := by
  rw [decodeBody]
  simp only [h, Bool.false_eq_true, if_false]

/-- Witness for C5 at content type `audio/mpeg`. -/
theorem claim5_binary_passthrough_witness :
    decodeBody "audio/mpeg".toList "ignored".toList [1, 2, 3] = .ok [1, 2, 3] :=
  claim5_binary_passthrough _ _ _ (by decide)

/-- C4.  For a text/JSON-typed body, a captured value that is empty, the
literal `null`, or invalid base64 contributes nothing and aborts nothing;
the decode fails (with the no-audio-data error) exactly when zero chunks
decode; a body of only `null`/empty data fields fails, while an invalid
chunk between two valid ones is skipped silently. -/
theorem claim4_skip_and_error_iff_empty (ct bodyText : List Char) (bodyBytes : List Nat)
    (h : (containsSub "application/json".toList (ct.map Char.toLower) ||
          containsSub "text".toList (ct.map Char.toLower)) = true) :
    chunkOfValue [] = none ∧
    chunkOfValue "null".toList = none ∧
    (∀ v, atob v = none → chunkOfValue v = none) ∧
    (decodeBody ct bodyText bodyBytes = .error .noAudioData ↔
      (scanData bodyText).filterMap chunkOfValue = []) ∧
    ((scanData bodyText).filterMap chunkOfValue ≠ [] →
      decodeBody ct bodyText bodyBytes =
        .ok ((scanData bodyText).filterMap chunkOfValue).flatten) ∧
    decodeBody ct (objWrap "null".toList ++ objWrap []) bodyBytes =
      .error .noAudioData ∧
    decodeBody ct (objWrap "QUI=".toList ++ objWrap "!!!".toList ++ objWrap "Q0Q=".toList)
      bodyBytes = .ok [65, 66, 67, 68] := by
  refine ⟨rfl, rfl, ?_, ?_, ?_, ?_, ?_⟩
  · intro v hv
    rw [chunkOfValue]
    split
    · exact hv
    · rfl
  · rw [decodeBody]
    simp only [h, if_true]
    by_cases hc : (scanData bodyText).filterMap chunkOfValue = []
    · simp [hc]
    · simp [hc]
  · intro hc
    rw [decodeBody]
    simp only [h, if_true]
    rw [if_neg hc]
  · rw [decodeBody]
    simp only [h, if_true]
    rfl
  · rw [decodeBody]
    simp only [h, if_true]
    rfl

/-- Witness for C4 at content type `application/json`: the null/empty body
fails while the invalid middle chunk is skipped. -/
theorem claim4_skip_and_error_iff_empty_witness :
    decodeBody "application/json".toList (objWrap "null".toList ++ objWrap []) [9] =
      .error .noAudioData ∧
    decodeBody "application/json".toList
      (objWrap "QUI=".toList ++ objWrap "!!!".toList ++ objWrap "Q0Q=".toList) [9] =
      .ok [65, 66, 67, 68] := by
  have h := claim4_skip_and_error_iff_empty "application/json".toList
    (objWrap "null".toList ++ objWrap []) [9] (by decide)
  exact ⟨h.2.2.2.2.2.1, h.2.2.2.2.2.2⟩

/-! ## Structure of the regex scan -/

/-- Capturing stops at the first quote: a quote-free prefix followed by a
quote splits exactly there. -/
theorem splitAtQuote_append (v r : List Char) (hv : quoteChar ∉ v) :
    splitAtQuote (v ++ quoteChar :: r) = some (v, r) := by
  induction v with
  | nil => simp [splitAtQuote]
  | cons c cs ih =>
    have hc : ¬ (c = quoteChar) := fun hEq => hv (hEq ▸ List.mem_cons_self c cs)
    have hcs : quoteChar ∉ cs := fun hmem => hv (List.mem_cons_of_mem c hmem)
    rw [List.cons_append, splitAtQuote, if_neg hc, ih hcs]

/-- Inversion: a successful capture decomposes the input as the quote-free
capture, the closing quote, and the remainder. -/
theorem splitAtQuote_some : ∀ (l v r : List Char), splitAtQuote l = some (v, r) →
    l = v ++ quoteChar :: r := by
  intro l
  induction l with
  | nil => intro v r h; cases h
  | cons c rest ih =>
    intro v r h
    rw [splitAtQuote] at h
    by_cases hc : c = quoteChar
    · rw [if_pos hc] at h
      injection h with h2
      rw [Prod.mk.injEq] at h2
      obtain ⟨hv, hr⟩ := h2
      subst hv; subst hr
      simp [hc]
    · rw [if_neg hc] at h
      cases hsq : splitAtQuote rest with
      | none => rw [hsq] at h; cases h
      | some p =>
        obtain ⟨v2, r2⟩ := p
        rw [hsq] at h
        injection h with h2
        rw [Prod.mk.injEq] at h2
        obtain ⟨hv, hr⟩ := h2
        subst hv; subst hr
        rw [List.cons_append, ih v2 r2 hsq]

/-- A list is a (boolean) prefix of itself followed by anything. -/
theorem isPrefixOf_append_self (l x : List Char) : l.isPrefixOf (l ++ x) = true := by
  induction l with
  | nil => rw [List.nil_append]; cases x <;> rfl
  | cons c cs ih => simp [List.isPrefixOf, ih]

/-- Unfolding equation for one scan step on a non-empty text. -/
theorem scanDataFuel_succ (fuel : Nat) (c : Char) (t : List Char) :
    scanDataFuel (fuel + 1) (c :: t) =
      if dataLit.isPrefixOf (c :: t) then
        match splitAtQuote (List.drop 8 (c :: t)) with
        | some (v, r) => v :: scanDataFuel fuel r
        | none => scanDataFuel fuel t
      else scanDataFuel fuel t := rfl

/-- Scan step at a position where the `"data":"` literal does not start:
move one character forward, exactly as the regex engine does. -/
theorem sdf_skip (fuel : Nat) (c : Char) (t : List Char)
    (h : dataLit.isPrefixOf (c :: t) = false) :
    scanDataFuel (fuel + 1) (c :: t) = scanDataFuel fuel t := by
  rw [scanDataFuel_succ]
  simp [h]

/-- Scan step at a match: emit the capture and resume after the closing
quote. -/
theorem sdf_hit (fuel : Nat) (c : Char) (t v r : List Char)
    (hp : dataLit.isPrefixOf (c :: t) = true)
    (hq : splitAtQuote (List.drop 8 (c :: t)) = some (v, r)) :
    scanDataFuel (fuel + 1) (c :: t) = v :: scanDataFuel fuel r := by
  rw [scanDataFuel_succ, if_pos hp, hq]

/-- Scan step where the literal starts but no closing quote follows: no
match at this position, move forward. -/
theorem sdf_miss (fuel : Nat) (c : Char) (t : List Char)
    (hp : dataLit.isPrefixOf (c :: t) = true)
    (hq : splitAtQuote (List.drop 8 (c :: t)) = none) :
    scanDataFuel (fuel + 1) (c :: t) = scanDataFuel fuel t := by
  rw [scanDataFuel_succ, if_pos hp, hq]

/-- The scan is fuel-insensitive once the fuel covers the text length, so
`scanData`'s choice of `s.length` is canonical. -/
theorem scanDataFuel_eq : ∀ (f1 : Nat) (s : List Char) (f2 : Nat),
    s.length ≤ f1 → s.length ≤ f2 → scanDataFuel f1 s = scanDataFuel f2 s := by
  intro f1
  induction f1 with
  | zero =>
    intro s f2 h1 _
    have hs : s = [] := List.eq_nil_of_length_eq_zero (Nat.le_zero.mp h1)
    subst hs
    cases f2 <;> rfl
  | succ f1 ih =>
    intro s f2 h1 h2
    cases s with
    | nil => cases f2 <;> rfl
    | cons c rest =>
      cases f2 with
      | zero => simp at h2
      | succ g =>
        simp only [List.length_cons] at h1 h2
        by_cases hp : dataLit.isPrefixOf (c :: rest) = true
        · cases hsq : splitAtQuote (List.drop 8 (c :: rest)) with
          | none =>
            rw [sdf_miss f1 c rest hp hsq, sdf_miss g c rest hp hsq]
            exact ih rest g (by omega) (by omega)
          | some p =>
            obtain ⟨v, r⟩ := p
            have hdec := splitAtQuote_some _ v r hsq
            have hlen := congrArg List.length hdec
            simp only [List.length_drop, List.length_cons, List.length_append] at hlen
            rw [sdf_hit f1 c rest v r hp hsq, sdf_hit g c rest v r hp hsq]
            exact congrArg (v :: ·) (ih r g (by omega) (by omega))
        · have hp2 : dataLit.isPrefixOf (c :: rest) = false := by
            cases hEq : dataLit.isPrefixOf (c :: rest) with
            | true => exact absurd hEq hp
            | false => rfl
          rw [sdf_skip f1 c rest hp2, sdf_skip g c rest hp2]
          exact ih rest g (by omega) (by omega)

/-- One well-formed `{"data":"<v>"}` frame at the head of the body yields
exactly the capture `v` and the scan of the remainder: the scan tolerates
frames concatenated with no separator. -/
theorem scanData_objWrap (v rest : List Char) (hv : quoteChar ∉ v) :
    scanData (objWrap v ++ rest) = v :: scanData rest := by
  have hXform : objWrap v ++ rest =
      lbraceChar :: (dataLit ++ (v ++ quoteChar :: (rbraceChar :: rest))) := by
    simp [objWrap, dataLit]
  have hXlen : (objWrap v ++ rest).length = (v.length + rest.length + 8) + 3 := by
    simp [objWrap, dataLit]
    omega
  have hbrace : dataLit.isPrefixOf
      (lbraceChar :: (dataLit ++ (v ++ quoteChar :: (rbraceChar :: rest)))) = false := by
    have : (quoteChar == lbraceChar) = false := by decide
    simp [dataLit, List.isPrefixOf, this]
  have hcons : dataLit ++ (v ++ quoteChar :: (rbraceChar :: rest)) =
      quoteChar :: (['d', 'a', 't', 'a', quoteChar, ':', quoteChar] ++
        (v ++ quoteChar :: (rbraceChar :: rest))) := rfl
  have hpre : dataLit.isPrefixOf
      (quoteChar :: (['d', 'a', 't', 'a', quoteChar, ':', quoteChar] ++
        (v ++ quoteChar :: (rbraceChar :: rest)))) = true := by
    rw [← hcons]
    exact isPrefixOf_append_self dataLit _
  have hdrop : List.drop 8
      (quoteChar :: (['d', 'a', 't', 'a', quoteChar, ':', quoteChar] ++
        (v ++ quoteChar :: (rbraceChar :: rest)))) =
      v ++ quoteChar :: (rbraceChar :: rest) := rfl
  have hquote : splitAtQuote (v ++ quoteChar :: (rbraceChar :: rest)) =
      some (v, rbraceChar :: rest) := splitAtQuote_append v _ hv
  have hrb : dataLit.isPrefixOf (rbraceChar :: rest) = false := by
    have : (quoteChar == rbraceChar) = false := by decide
    simp [dataLit, List.isPrefixOf, this]
  rw [scanData, hXlen, hXform]
  rw [show (v.length + rest.length + 8) + 3 = ((v.length + rest.length + 8) + 2) + 1
    from rfl]
  rw [sdf_skip _ _ _ hbrace, hcons]
  rw [show (v.length + rest.length + 8) + 2 = ((v.length + rest.length + 8) + 1) + 1
    from rfl]
  rw [sdf_hit _ _ _ v (rbraceChar :: rest) hpre (by rw [hdrop]; exact hquote)]
  rw [sdf_skip _ _ _ hrb]
  rw [scanData]
  exact congrArg (v :: ·)
    (scanDataFuel_eq (v.length + rest.length + 8) rest rest.length (by omega) le_rfl)

/-- C3.  For a text/JSON-typed response whose body is any number of
`{"data":"<b64>"}` frames concatenated without separators, the decoder
captures every frame's value in order of appearance, base64-decodes the
non-empty non-`null` values, and returns the concatenation of the decoded
chunks in match order; two concatenated frames decode to the concatenation
of the two byte sequences. -/
theorem claim3_scan_decode_concat (ct : List Char) (vs : List (List Char))
    (bodyBytes : List Nat)
    (hct : (containsSub "application/json".toList (ct.map Char.toLower) ||
            containsSub "text".toList (ct.map Char.toLower)) = true)
    (hne : vs ≠ [])
    (hvals : ∀ v ∈ vs, v ≠ [] ∧ v ≠ "null".toList ∧ quoteChar ∉ v)
    (hdec : ∀ v ∈ vs, (atob v).isSome) :
    scanData (vs.map objWrap).flatten = vs ∧
    decodeBody ct (vs.map objWrap).flatten bodyBytes =
      .ok ((vs.filterMap atob).flatten) ∧
    decodeBody "application/json".toList
      (objWrap "QUI=".toList ++ objWrap "Q0Q=".toList) [] = .ok [65, 66, 67, 68] := by
  have hscan : scanData (vs.map objWrap).flatten = vs := by
    clear hne hdec
    induction vs with
    | nil => rfl
    | cons v rest ih =>
      rw [List.map_cons, List.flatten_cons,
        scanData_objWrap v _ (hvals v (List.mem_cons_self v rest)).2.2,
        ih fun w hw => hvals w (List.mem_cons_of_mem v hw)]
  refine ⟨hscan, ?_, by rfl⟩
  have hchunks : (scanData (vs.map objWrap).flatten).filterMap chunkOfValue =
      vs.filterMap atob := by
    rw [hscan]
    apply List.filterMap_congr
    intro v hvmem
    rw [chunkOfValue, if_pos ⟨(hvals v hvmem).1, (hvals v hvmem).2.1⟩]
  have hnonempty : vs.filterMap atob ≠ [] := by
    cases vs with
    | nil => exact absurd rfl hne
    | cons v rest =>
      obtain ⟨b, hb⟩ := Option.isSome_iff_exists.mp (hdec v (List.mem_cons_self v rest))
      rw [List.filterMap_cons, hb]
      exact List.cons_ne_nil b _
  rw [decodeBody]
  simp only [hct, if_true]
  rw [hchunks, if_neg hnonempty]

/-- Witness for C3: two concatenated frames with values `QUI=` and `Q0Q=`
decode to the bytes of `AB` followed by the bytes of `CD`. -/
theorem claim3_scan_decode_concat_witness :
    decodeBody "application/json".toList
      ((["QUI=".toList, "Q0Q=".toList].map objWrap).flatten) [9] =
      .ok [65, 66, 67, 68] := by
  have h := claim3_scan_decode_concat "application/json".toList
    ["QUI=".toList, "Q0Q=".toList] [9] (by decide) (by decide) (by decide) (by decide)
  exact h.2.1


/-! ## Theorems about the playback controller -/

/-- Filtering releases distributes over trace concatenation. -/
theorem releasesOf_append (a b : List Ev) :
    releasesOf (a ++ b) = releasesOf a ++ releasesOf b :=
  List.filterMap_append a b _

/-- Filtering plays distributes over trace concatenation. -/
theorem playsOf_append (a b : List Ev) :
    playsOf (a ++ b) = playsOf a ++ playsOf b :=
  List.filterMap_append a b _

/-- The `onended` revocation releases exactly the URL under the cursor. -/
theorem releasesOf_relEvsAt (urls : List Nat) (i : Nat) :
    releasesOf (relEvsAt ⟨urls, i⟩) = (urls[i]?).toList := by
  cases h : urls[i]? with
  | none => simp [relEvsAt, releasesOf, h]
  | some u => simp [relEvsAt, releasesOf, h]

/-- The `onended` revocation plays nothing. -/
theorem playsOf_relEvsAt (urls : List Nat) (i : Nat) :
    playsOf (relEvsAt ⟨urls, i⟩) = [] := by
  cases h : urls[i]? with
  | none => simp [relEvsAt, playsOf, h]
  | some u => simp [relEvsAt, playsOf, h]

/-- A `playNext` step releases nothing. -/
theorem releasesOf_playNextEvs (urls : List Nat) (i : Nat) :
    releasesOf (playNextEvs ⟨urls, i⟩) = [] := by
  cases h : urls[i]? with
  | none => simp [playNextEvs, releasesOf, h]
  | some u => simp [playNextEvs, releasesOf, h]

/-- A `playNext` step plays the URL under the cursor, when there is one. -/
theorem playsOf_playNextEvs (urls : List Nat) (i : Nat) :
    playsOf (playNextEvs ⟨urls, i⟩) = (urls[i]?).toList := by
  cases h : urls[i]? with
  | none => simp [playNextEvs, playsOf, h]
  | some u => simp [playNextEvs, playsOf, h]

/-- A cancellation trace releases exactly the listed URLs. -/
theorem releasesOf_release_map (l : List Nat) :
    releasesOf (l.map Ev.release) = l := by
  induction l with
  | nil => rfl
  | cons u rest ih =>
    rw [List.map_cons]
    show u :: releasesOf (rest.map Ev.release) = u :: rest
    rw [ih]

/-- A cancellation trace plays nothing. -/
theorem playsOf_release_map (l : List Nat) :
    playsOf (l.map Ev.release) = [] := by
  induction l with
  | nil => rfl
  | cons u rest ih =>
    rw [List.map_cons]
    show playsOf (rest.map Ev.release) = []
    exact ih

/-- The suffix of the queue starting at an in-range cursor is the URL under
the cursor followed by the rest. -/
theorem drop_cursor_cons (urls : List Nat) (i : Nat) (h : i < urls.length) :
    urls.drop i = urls.get ⟨i, h⟩ :: urls.drop (i + 1) :=
  List.drop_eq_getElem_cons h

/-- Scheduler step while a segment plays and the user does not cancel: the
segment ends, its URL is revoked, and the next segment starts. -/
theorem drive_step_end (cancelAt : Option Nat) (fuel : Nat) (urls : List Nat) (i : Nat)
    (h1 : i < urls.length) (h2 : ¬ (cancelAt = some i)) :
    drive cancelAt (fuel + 1) ⟨urls, i⟩ =
      (relEvsAt ⟨urls, i⟩ ++ playNextEvs ⟨urls, i + 1⟩ ++
        (drive cancelAt fuel ⟨urls, i + 1⟩).1,
       (drive cancelAt fuel ⟨urls, i + 1⟩).2) := by
  rw [drive, if_pos h1, if_neg h2]
  rfl

/-- Scheduler step at the cancellation point: `stopPlayback` revokes every
URL from the cursor on, clears the queue and resets the cursor. -/
theorem drive_step_cancel (cancelAt : Option Nat) (fuel : Nat) (urls : List Nat) (i : Nat)
    (h1 : i < urls.length) (h2 : cancelAt = some i) :
    drive cancelAt (fuel + 1) ⟨urls, i⟩ = ((urls.drop i).map Ev.release, ⟨[], 0⟩) := by
  rw [drive, if_pos h1, if_pos h2]
  rfl

/-- Scheduler step once the cursor is past the queue: nothing happens. -/
theorem drive_step_done (cancelAt : Option Nat) (fuel : Nat) (urls : List Nat) (i : Nat)
    (h : ¬ (i < urls.length)) :
    drive cancelAt (fuel + 1) ⟨urls, i⟩ = ([], ⟨urls, i⟩) := by
  rw [drive, if_neg h]

/-- Unfolding of a full lifetime into the first `playNext` and the
scheduler run. -/
theorem runScenario_eq (urls : List Nat) (cancelAt : Option Nat) :
    runScenario urls cancelAt =
      (playNextEvs ⟨urls, 0⟩ ++ (drive cancelAt urls.length ⟨urls, 0⟩).1,
       (drive cancelAt urls.length ⟨urls, 0⟩).2) := rfl

/-- Natural-completion runs of the scheduler: from cursor `i` every
remaining URL is released in order, the URLs after the cursor are played in
order, and the final state keeps the queue with the cursor at its length. -/
theorem drive_none_spec (urls : List Nat) : ∀ (fuel i : Nat),
    urls.length - i ≤ fuel → i ≤ urls.length →
    releasesOf (drive none fuel ⟨urls, i⟩).1 = urls.drop i ∧
    playsOf (drive none fuel ⟨urls, i⟩).1 = urls.drop (i + 1) ∧
    (drive none fuel ⟨urls, i⟩).2 = ⟨urls, urls.length⟩ := by
  intro fuel
  induction fuel with
  | zero =>
    intro i hfuel hi
    have hEq : i = urls.length := by omega
    subst hEq
    refine ⟨?_, ?_, rfl⟩
    · rw [List.drop_length]; rfl
    · rw [List.drop_eq_nil_of_le (by omega)]; rfl
  | succ fuel ih =>
    intro i hfuel hi
    by_cases hlt : i < urls.length
    · rw [drive_step_end none fuel urls i hlt (by simp)]
      obtain ⟨ihrel, ihplay, ihstate⟩ := ih (i + 1) (by omega) (by omega)
      have hget : urls[i]? = some (urls.get ⟨i, hlt⟩) := by
        rw [List.getElem?_eq_getElem hlt, List.get_eq_getElem]
      refine ⟨?_, ?_, ihstate⟩
      · show releasesOf (relEvsAt ⟨urls, i⟩ ++ playNextEvs ⟨urls, i + 1⟩ ++
          (drive none fuel ⟨urls, i + 1⟩).1) = urls.drop i
        rw [releasesOf_append, releasesOf_append, releasesOf_relEvsAt,
          releasesOf_playNextEvs, ihrel, hget, drop_cursor_cons urls i hlt]
        simp
      · show playsOf (relEvsAt ⟨urls, i⟩ ++ playNextEvs ⟨urls, i + 1⟩ ++
          (drive none fuel ⟨urls, i + 1⟩).1) = urls.drop (i + 1)
        rw [playsOf_append, playsOf_append, playsOf_relEvsAt,
          playsOf_playNextEvs, ihplay]
        by_cases hlt2 : i + 1 < urls.length
        · rw [List.getElem?_eq_getElem hlt2, drop_cursor_cons urls (i + 1) hlt2]
          simp
        · rw [List.getElem?_eq_none (by omega),
            List.drop_eq_nil_of_le (show urls.length ≤ i + 1 + 1 by omega),
            List.drop_eq_nil_of_le (show urls.length ≤ i + 1 by omega)]
          rfl
    · have hEq : i = urls.length := by omega
      subst hEq
      rw [drive_step_done none fuel urls urls.length hlt]
      refine ⟨?_, ?_, rfl⟩
      · rw [List.drop_length]; rfl
      · rw [List.drop_eq_nil_of_le (by omega)]; rfl

/-- Cancelled runs of the scheduler: with a `cancel()` while segment `k` is
playing, every URL from the cursor on is still released exactly in queue
order (those before `k` by natural completion, the rest by `stopPlayback`),
only the URLs through index `k` are played, and the final state is the
cleared queue with the cursor at 0. -/
theorem drive_cancel_spec (urls : List Nat) (k : Nat) (hk : k < urls.length) :
    ∀ (fuel i : Nat), i ≤ k → urls.length - i ≤ fuel →
    releasesOf (drive (some k) fuel ⟨urls, i⟩).1 = urls.drop i ∧
    playsOf (drive (some k) fuel ⟨urls, i⟩).1 = (urls.drop (i + 1)).take (k - i) ∧
    (drive (some k) fuel ⟨urls, i⟩).2 = ⟨[], 0⟩ := by
  intro fuel
  induction fuel with
  | zero => intro i hik hfuel; omega
  | succ fuel ih =>
    intro i hik hfuel
    have hlt : i < urls.length := by omega
    by_cases hcancel : i = k
    · subst hcancel
      rw [drive_step_cancel (some i) fuel urls i hlt rfl]
      refine ⟨?_, ?_, rfl⟩
      · show releasesOf ((urls.drop i).map Ev.release) = urls.drop i
        exact releasesOf_release_map (urls.drop i)
      · show playsOf ((urls.drop i).map Ev.release) = (urls.drop (i + 1)).take (i - i)
        rw [playsOf_release_map, Nat.sub_self, List.take_zero]
    · have hik2 : i + 1 ≤ k := by omega
      have hne : ¬ ((some k : Option Nat) = some i) := by
        intro hEq
        exact hcancel (Option.some.inj hEq).symm
      rw [drive_step_end (some k) fuel urls i hlt hne]
      obtain ⟨ihrel, ihplay, ihstate⟩ := ih (i + 1) hik2 (by omega)
      have hget : urls[i]? = some (urls.get ⟨i, hlt⟩) := by
        rw [List.getElem?_eq_getElem hlt, List.get_eq_getElem]
      have hlt2 : i + 1 < urls.length := by omega
      refine ⟨?_, ?_, ihstate⟩
      · show releasesOf (relEvsAt ⟨urls, i⟩ ++ playNextEvs ⟨urls, i + 1⟩ ++
          (drive (some k) fuel ⟨urls, i + 1⟩).1) = urls.drop i
        rw [releasesOf_append, releasesOf_append, releasesOf_relEvsAt,
          releasesOf_playNextEvs, ihrel, hget, drop_cursor_cons urls i hlt]
        simp
      · show playsOf (relEvsAt ⟨urls, i⟩ ++ playNextEvs ⟨urls, i + 1⟩ ++
          (drive (some k) fuel ⟨urls, i + 1⟩).1) = (urls.drop (i + 1)).take (k - i)
        rw [playsOf_append, playsOf_append, playsOf_relEvsAt,
          playsOf_playNextEvs, ihplay, List.getElem?_eq_getElem hlt2,
          show k - i = (k - (i + 1)) + 1 by omega,
          drop_cursor_cons urls (i + 1) hlt2, List.take_succ_cons,
          List.get_eq_getElem]
        rfl

/-- A full natural-completion lifetime: all URLs played in order, all URLs
released in order, queue and cursor left in the finished configuration. -/
theorem runScenario_none_spec (urls : List Nat) :
    releasesOf (runScenario urls none).1 = urls ∧
    playsOf (runScenario urls none).1 = urls ∧
    (runScenario urls none).2 = ⟨urls, urls.length⟩ := by
  obtain ⟨hrel, hplay, hstate⟩ := drive_none_spec urls urls.length 0 (by omega) (by omega)
  rw [runScenario_eq]
  refine ⟨?_, ?_, hstate⟩
  · show releasesOf (playNextEvs ⟨urls, 0⟩ ++ (drive none urls.length ⟨urls, 0⟩).1) = urls
    rw [releasesOf_append, releasesOf_playNextEvs, hrel, List.drop_zero]
    rfl
  · show playsOf (playNextEvs ⟨urls, 0⟩ ++ (drive none urls.length ⟨urls, 0⟩).1) = urls
    rw [playsOf_append, playsOf_playNextEvs, hplay]
    cases urls with
    | nil => rfl
    | cons u rest => simp

/-- A lifetime cancelled while segment `k` plays: all URLs are still
released in queue order, exactly the first `k + 1` URLs are played, and
the state ends cleared. -/
theorem runScenario_cancel_spec (urls : List Nat) (k : Nat) (hk : k < urls.length) :
    releasesOf (runScenario urls (some k)).1 = urls ∧
    playsOf (runScenario urls (some k)).1 = urls.take (k + 1) ∧
    (runScenario urls (some k)).2 = ⟨[], 0⟩ := by
  obtain ⟨hrel, hplay, hstate⟩ :=
    drive_cancel_spec urls k hk urls.length 0 (by omega) (by omega)
  rw [runScenario_eq]
  refine ⟨?_, ?_, hstate⟩
  · show releasesOf (playNextEvs ⟨urls, 0⟩ ++ (drive (some k) urls.length ⟨urls, 0⟩).1) =
      urls
    rw [releasesOf_append, releasesOf_playNextEvs, hrel, List.drop_zero]
    rfl
  · show playsOf (playNextEvs ⟨urls, 0⟩ ++ (drive (some k) urls.length ⟨urls, 0⟩).1) =
      urls.take (k + 1)
    rw [playsOf_append, playsOf_playNextEvs, hplay]
    cases urls with
    | nil => simp at hk
    | cons u rest => simp

/-- C8.  Playback plays the queue strictly in order; cancelling while
index 1 of `[b0, b1, b2]` is playing releases the resource for index 1 and
the remaining index 2 with no further playback; over a whole lifetime —
run to completion or cancelled at any index — the released URLs are
exactly the queue in order, so with distinct handles each is released
exactly once, played at most once, and never leaked. -/
theorem claim8_resource_safety (urls : List Nat) (k : Nat)
    (hk : k < urls.length) (hnd : urls.Nodup) :
    releasesOf (runScenario urls (some k)).1 = urls ∧
    playsOf (runScenario urls (some k)).1 = urls.take (k + 1) ∧
    (runScenario urls (some k)).2 = ⟨[], 0⟩ ∧
    releasesOf (runScenario urls none).1 = urls ∧
    playsOf (runScenario urls none).1 = urls ∧
    (∀ u ∈ urls,
      (releasesOf (runScenario urls (some k)).1).count u = 1 ∧
      (releasesOf (runScenario urls none).1).count u = 1 ∧
      (playsOf (runScenario urls (some k)).1).count u ≤ 1 ∧
      (playsOf (runScenario urls none).1).count u = 1) ∧
    runScenario [0, 1, 2] (some 1) =
      ([.play 0, .release 0, .play 1, .release 1, .release 2], ⟨[], 0⟩) := by
  obtain ⟨hrel1, hplay1, hstate1⟩ := runScenario_cancel_spec urls k hk
  obtain ⟨hrel2, hplay2, _⟩ := runScenario_none_spec urls
  refine ⟨hrel1, hplay1, hstate1, hrel2, hplay2, ?_, by decide⟩
  intro u hu
  have hcount : urls.count u = 1 := List.count_eq_one_of_mem hnd hu
  refine ⟨by rw [hrel1, hcount], by rw [hrel2, hcount], ?_, by rw [hplay2, hcount]⟩
  rw [hplay1]
  calc (urls.take (k + 1)).count u ≤ urls.count u :=
        (List.take_sublist (k + 1) urls).count_le u
    _ = 1 := hcount

/-- Witness for C8 at the queue `[0, 1, 2]` cancelled at index 1. -/
theorem claim8_resource_safety_witness :
    releasesOf (runScenario [0, 1, 2] (some 1)).1 = [0, 1, 2] ∧
    playsOf (runScenario [0, 1, 2] (some 1)).1 = [0, 1] := by
  have h := claim8_resource_safety [0, 1, 2] 1 (by decide) (by decide)
  exact ⟨h.1, h.2.1⟩

/-- Counterexample to C9 as stated: after the queue `[7]` finishes
naturally the queue is not cleared and the cursor is not reset — the final
state is `⟨[7], 1⟩`, not `⟨[], 0⟩`.  Only `stopPlayback` (the cancelled
path) clears them. -/
theorem claim9_counterexample :
    ¬ ((runScenario [7] none).2.urls = [] ∧ (runScenario [7] none).2.idx = 0) := by
  decide

/-- C9 amended.  In the Cancelled terminal state the queue is cleared and
the cursor reset to 0; in the Finished terminal state the queue and the
cursor are left untouched (cursor at the queue length).  The controller is
nevertheless ready for a new `start()` in both cases because the start
handler installs a fresh queue and resets the cursor itself, whatever the
previous state was. -/
theorem claim9_amended (urls newUrls : List Nat) (k : Nat) (hk : k < urls.length)
    (s : PState) :
    (runScenario urls (some k)).2 = ⟨[], 0⟩ ∧
    (stopPlaybackStep s).1 = ⟨[], 0⟩ ∧
    (runScenario urls none).2 = ⟨urls, urls.length⟩ ∧
    (startPlayback newUrls s).1 = ⟨newUrls, 0⟩ :=
  ⟨(runScenario_cancel_spec urls k hk).2.2, rfl, (runScenario_none_spec urls).2.2, rfl⟩

/-- Witness for C9's amended statement: a two-element queue cancelled at
index 0 ends cleared, while the same queue run to completion keeps its
URLs with the cursor at 2. -/
theorem claim9_amended_witness :
    (runScenario [3, 4] (some 0)).2 = ⟨[], 0⟩ ∧
    (runScenario [3, 4] none).2 = ⟨[3, 4], 2⟩ := by
  have h := claim9_amended [3, 4] [9] 0 (by decide) ⟨[5], 1⟩
  exact ⟨h.1, h.2.2.1⟩

end NovelReader
